import Mathlib

set_option maxRecDepth 40000

/-!
Shallow embedding of the core of the Artistly repository: the mock
query resolver (src/lib/graphql.ts), the client-side filter engine
(the useOptimizedFilters hook), and the onboarding transform of
src/lib/types.ts.  JavaScript numbers that hold prices are modelled
as Int; strings are Lean strings (the repository data is ASCII, so
toLowerCase and default sort agree with the Lean counterparts).
-/

namespace Artistly

/-- The opening-brace character (code point 123), named so that query
documents and the brace-matching code can refer to it. -/
def lbrace : Char := Char.ofNat 123

/-- The closing-brace character (code point 125). -/
def rbrace : Char := Char.ofNat 125

/-- Char-list test that pat is a leading segment of the second list;
building block for the JavaScript substring test. -/
def isPrefixChars : List Char → List Char → Bool
  | [], _ => true
  | _ :: _, [] => false
  | a :: as, b :: bs => a == b && isPrefixChars as bs

/-- Occurrence of pat as a contiguous run inside the second list. -/
def hasSubstring (pat : List Char) : List Char → Bool
  | [] => isPrefixChars pat []
  | c :: rest => isPrefixChars pat (c :: rest) || hasSubstring pat rest

/-- JavaScript String.prototype.includes: true when pat occurs as a
contiguous substring of s. -/
def strIncludes (s pat : String) : Bool := hasSubstring pat.data s.data

/-- Price interval of an artist record (src/lib/types.ts, PriceRange). -/
structure PriceRange where
  min : Int
  max : Int
  deriving DecidableEq, Repr

/-- Artist record (src/lib/types.ts, Artist). -/
structure Artist where
  id : String
  name : String
  categories : List String
  location : String
  priceRange : PriceRange
  bio : String
  imageUrl : String
  languages : List String
  deriving DecidableEq, Repr

/-- First match of the regex /\x7b([^\x7d]+)\x7d/ over a char list: the
engine scans left to right for an opening brace followed by at least one
non-closing-brace character and then a closing brace, and captures the
run between the braces (graphql.ts line 42). -/
def captureBraces : List Char → Option (List Char)
  | [] => none
  | c :: rest =>
    if c == lbrace then
      let cap := rest.takeWhile (fun d => d != rbrace)
      if cap.isEmpty || (rest.drop cap.length).isEmpty then captureBraces rest
      else some cap
    else captureBraces rest

/-- JavaScript String.prototype.split on the newline character: every
segment between newlines, including empty leading, trailing and middle
segments. -/
def splitNewlines : List Char → List (List Char)
  | [] => [[]]
  | c :: rest =>
    if c = '\n' then [] :: splitNewlines rest
    else
      match splitNewlines rest with
      | [] => [[c]]
      | l :: ls => (c :: l) :: ls

/-- JavaScript String.prototype.trim: drop whitespace from both ends. -/
def trimChars (l : List Char) : List Char :=
  ((l.dropWhile Char.isWhitespace).reverse.dropWhile Char.isWhitespace).reverse

/-- The per-line replace of parseQuery: line.replace(/\s*\x7b.*$/, '')
followed by trim, i.e. keep the text before the first opening brace and
trim surrounding whitespace (graphql.ts line 49). -/
def stripSubsel (line : List Char) : String :=
  String.mk (trimChars (line.takeWhile (fun c => c != lbrace)))

/-- parseQuery from src/lib/graphql.ts (lines 40-50): capture the first
regex brace match, split on newlines, trim, drop empty and #-comment
lines, and strip each line from its first opening brace onward. -/
def parseQuery (query : String) : List String :=
  match captureBraces query.data with
  | none => []
  | some cap =>
      ((splitNewlines cap).map trimChars)
        |>.filter (fun line => !line.isEmpty && !(isPrefixChars ['#'] line))
        |>.map stripSubsel

/-- Operation classification of graphqlRequest (graphql.ts lines 77-84):
substring tests applied in source order, defaulting to the artists
operation. -/
def classifyOperation (queryString : String) : String :=
  if strIncludes queryString "artist(" then "artist"
  else if strIncludes queryString "artistsByCategory" then "artistsByCategory"
  else if strIncludes queryString "artistsByLocation" then "artistsByLocation"
  else "artists"

namespace queries

/-- The getAllArtists template literal of graphql.ts (lines 127-143),
byte for byte. -/
def getAllArtists : String :=
  "\n    query GetAllArtists \x7b\n      artists \x7b\n        id\n        name\n        categories\n        location\n        priceRange \x7b\n          min\n          max\n        \x7d\n        bio\n        imageUrl\n        languages\n      \x7d\n    \x7d\n  "

/-- The getArtistById template literal of graphql.ts (lines 145-161). -/
def getArtistById : String :=
  "\n    query GetArtistById($id: String!) \x7b\n      artist(id: $id) \x7b\n        id\n        name\n        categories\n        location\n        priceRange \x7b\n          min\n          max\n        \x7d\n        bio\n        imageUrl\n        languages\n      \x7d\n    \x7d\n  "

/-- The getArtistsByCategory template literal of graphql.ts (lines 163-177). -/
def getArtistsByCategory : String :=
  "\n    query GetArtistsByCategory($category: String!) \x7b\n      artistsByCategory(category: $category) \x7b\n        id\n        name\n        categories\n        location\n        priceRange \x7b\n          min\n          max\n        \x7d\n        imageUrl\n      \x7d\n    \x7d\n  "

/-- The getArtistsByLocation template literal of graphql.ts (lines 179-193). -/
def getArtistsByLocation : String :=
  "\n    query GetArtistsByLocation($location: String!) \x7b\n      artistsByLocation(location: $location) \x7b\n        id\n        name\n        categories\n        location\n        priceRange \x7b\n          min\n          max\n        \x7d\n        imageUrl\n      \x7d\n    \x7d\n  "

end queries

/-- Variable mapping handed to graphqlRequest.  Each field is optional:
a JavaScript caller may omit any of them, in which case the resolver
sees the value undefined. -/
structure Variables where
  id : Option String
  category : Option String
  location : Option String
  deriving DecidableEq, Repr

/-- What a resolver of graphql.ts (lines 53-60) can return: the artists,
artist and artistsBy* resolvers produce an array, a found record, or
undefined (a failed find). -/
inductive Resolved where
  | list : List Artist → Resolved
  | found : Artist → Resolved
  | missing : Resolved
  deriving DecidableEq, Repr

/-- Runs the resolver selected by the operation string (graphql.ts lines
53-60 and 86-92).  The artists fixture of src/lib/data is imported by the
source; it is passed here as the explicit argument `artists`.  JavaScript
semantics modelled exactly: a missing id or category variable is
undefined, which compares or membership-tests to false without throwing,
while a missing location variable makes args.location.toLowerCase()
throw a TypeError; the unknown-operation guard of lines 88-90 throws its
templated message. -/
def runResolver (artists : List Artist) (operation : String) (vars : Variables) :
    Except String Resolved :=
  if operation = "artists" then .ok (.list artists)
  else if operation = "artist" then
    match vars.id with
    | none => .ok .missing
    | some i =>
      match artists.find? (fun a => a.id == i) with
      | some a => .ok (.found a)
      | none => .ok .missing
  else if operation = "artistsByCategory" then
    .ok (.list (artists.filter (fun a =>
      match vars.category with
      | none => false
      | some c => a.categories.contains c)))
  else if operation = "artistsByLocation" then
    match vars.location with
    | none => .error "Cannot read properties of undefined (reading \x27toLowerCase\x27)"
    | some l =>
      .ok (.list (artists.filter (fun a =>
        strIncludes a.location.toLower l.toLower)))
  else .error ("Unknown operation: " ++ operation)

/-- Result of projecting an Artist onto a field list: each attribute is
present or absent, like the Partial-typed object built at graphql.ts
lines 96-113. -/
structure ProjectedArtist where
  id : Option String
  name : Option String
  categories : Option (List String)
  location : Option String
  priceRange : Option PriceRange
  bio : Option String
  imageUrl : Option String
  languages : Option (List String)
  deriving DecidableEq, Repr

/-- Projection of one Artist onto the requested fields (graphql.ts lines
96-104): a field is copied exactly when its name is in the list; names
that are not Artist properties are silently skipped. -/
def projectArtist (fields : List String) (a : Artist) : ProjectedArtist where
  id := if fields.contains "id" then some a.id else none
  name := if fields.contains "name" then some a.name else none
  categories := if fields.contains "categories" then some a.categories else none
  location := if fields.contains "location" then some a.location else none
  priceRange := if fields.contains "priceRange" then some a.priceRange else none
  bio := if fields.contains "bio" then some a.bio else none
  imageUrl := if fields.contains "imageUrl" then some a.imageUrl else none
  languages := if fields.contains "languages" then some a.languages else none

/-- The same projection loop applied to an already-projected object: the
JavaScript `field in data` test sees only the keys that are present, so
absent keys stay absent even when requested. -/
def projectAgain (fields : List String) (p : ProjectedArtist) : ProjectedArtist where
  id := if fields.contains "id" then p.id else none
  name := if fields.contains "name" then p.name else none
  categories := if fields.contains "categories" then p.categories else none
  location := if fields.contains "location" then p.location else none
  priceRange := if fields.contains "priceRange" then p.priceRange else none
  bio := if fields.contains "bio" then p.bio else none
  imageUrl := if fields.contains "imageUrl" then p.imageUrl else none
  languages := if fields.contains "languages" then p.languages else none

/-- The data payload of a GraphQLResponse: a projected list, a projected
record, or null (graphql.ts lines 95-116). -/
inductive GQLData where
  | list : List ProjectedArtist → GQLData
  | single : ProjectedArtist → GQLData
  | null : GQLData
  deriving DecidableEq, Repr

/-- Response shape of graphqlRequest: data plus an optional error list
(graphql.ts lines 10-13). -/
structure GQLResponse where
  data : GQLData
  errors : Option (List String)
  deriving DecidableEq, Repr

/-- The try-block of graphqlRequest (graphql.ts lines 70-116): parse the
field list, classify the operation, run its resolver, and project the
result; any thrown condition surfaces as an Except.error. -/
def graphqlTry (artists : List Artist) (queryString : String) (vars : Variables) :
    Except String GQLData := do
  let fields := parseQuery queryString
  let operation := classifyOperation queryString
  let data ← runResolver artists operation vars
  match data with
  | .list l => pure (.list (l.map (projectArtist fields)))
  | .found a => pure (.single (projectArtist fields a))
  | .missing => pure .null

/-- graphqlRequest (graphql.ts lines 66-123) without the simulated
network delay: the catch-clause turns a thrown condition into a response
with null data and a one-entry error list carrying its message. -/
def graphqlRequest (artists : List Artist) (queryString : String) (vars : Variables) :
    GQLResponse :=
  match graphqlTry artists queryString vars with
  | .ok d => { data := d, errors := none }
  | .error msg => { data := .null, errors := some [msg] }

/-- Filter configuration of the useOptimizedFilters hook: category,
location substring and inclusive price interval (price.1 is the low
bound, price.2 the high bound). -/
structure FilterConfig where
  category : String
  location : String
  price : Int × Int
  deriving DecidableEq, Repr

/-- The per-record predicate of filteredArtists (useOptimizedFilters,
lines 48-65): the three early-return tests in source order. -/
def artistPasses (cfg : FilterConfig) (artist : Artist) : Bool :=
  if cfg.category != "all" && !(artist.categories.contains cfg.category) then
    false
  else if cfg.location != "" &&
      !(strIncludes artist.location.toLower cfg.location.toLower) then
    false
  else if artist.priceRange.min > cfg.price.2 || artist.priceRange.max < cfg.price.1 then
    false
  else
    true

/-- filteredArtists of the useOptimizedFilters hook: Array.prototype.filter
with the three-test predicate. -/
def filteredArtists (artists : List Artist) (cfg : FilterConfig) : List Artist :=
  artists.filter (artistPasses cfg)

/-- JavaScript Set construction order: first occurrences, in order. -/
def setInsertionOrder (seen : List String) : List String → List String
  | [] => []
  | x :: xs =>
    if seen.contains x then setInsertionOrder seen xs
    else x :: setInsertionOrder (x :: seen) xs

/-- availableLocations facet (useOptimizedFilters, lines 94-97):
Array.from(new Set(artists.map(a => a.location))).sort().  The default
JavaScript sort on these ASCII strings is the lexicographic order. -/
def availableLocations (artists : List Artist) : List String :=
  (setInsertionOrder [] (artists.map (fun a => a.location))).mergeSort
    (fun s t => s ≤ t)

/-- Math.min spread over a nonempty list (the empty case never arises in
priceStats; it is given an arbitrary value here). -/
def jsMin : List Int → Int
  | [] => 0
  | x :: xs => xs.foldl min x

/-- Math.max spread over a nonempty list. -/
def jsMax : List Int → Int
  | [] => 0
  | x :: xs => xs.foldl max x

/-- The flatMap of priceStats: [min, max] per record, concatenated. -/
def priceEndpoints (artists : List Artist) : List Int :=
  artists.flatMap (fun a => [a.priceRange.min, a.priceRange.max])

/-- priceStats facet (useOptimizedFilters, lines 102-114): the default
pair for an empty record set, otherwise Math.min and Math.max over every
interval endpoint. -/
def priceStats (artists : List Artist) : PriceRange :=
  if artists.isEmpty then { min := 0, max := 5000 }
  else { min := jsMin (priceEndpoints artists), max := jsMax (priceEndpoints artists) }

/-- Onboarding form payload (src/lib/types.ts, ArtistFormData).  The
optional profileImage File is modelled by the object URL the transform
would derive from it. -/
structure ArtistFormData where
  name : String
  bio : String
  categories : List String
  languages : List String
  feeRange : String
  location : String
  profileImage : Option String
  deriving DecidableEq, Repr

/-- parseFeeRange inside transformFormDataToArtist (types.ts lines
55-70): the switch over the fee-range token, with its default case. -/
def parseFeeRange (feeRange : String) : PriceRange :=
  if feeRange = "0-500" then { min := 0, max := 500 }
  else if feeRange = "500-1000" then { min := 500, max := 1000 }
  else if feeRange = "1000-2500" then { min := 1000, max := 2500 }
  else if feeRange = "2500-5000" then { min := 2500, max := 5000 }
  else if feeRange = "5000+" then { min := 5000, max := 10000 }
  else { min := 0, max := 1000 }

/-- transformFormDataToArtist (types.ts lines 53-82).  Date.now() is
impure; the timestamp is passed as the argument `now`. -/
def transformFormDataToArtist (now : Nat) (formData : ArtistFormData) : Artist where
  id := "temp-" ++ toString now
  name := formData.name
  categories := formData.categories
  location := formData.location
  priceRange := parseFeeRange formData.feeRange
  bio := formData.bio
  imageUrl :=
    match formData.profileImage with
    | some url => url
    | none => "https://placehold.co/400x400.png"
  languages := formData.languages

/-- Specification-side pass predicate for the filter engine, written
from the words of the claim: category is the all sentinel or a member of
the record's category set; the location string is empty or occurs
case-insensitively inside the record's location; and the price intervals
overlap. -/
def specPasses (cfg : FilterConfig) (a : Artist) : Prop :=
  (cfg.category = "all" ∨ cfg.category ∈ a.categories) ∧
  (cfg.location = "" ∨ strIncludes a.location.toLower cfg.location.toLower = true) ∧
  (a.priceRange.min ≤ cfg.price.2 ∧ cfg.price.1 ≤ a.priceRange.max)

instance (cfg : FilterConfig) (a : Artist) : Decidable (specPasses cfg a) := by
  unfold specPasses
  infer_instance

/-- A concrete artist record with a wide price interval, used by
concrete evaluations. -/
def artistSpan : Artist where
  id := "1"
  name := "Wide Span"
  categories := ["singer"]
  location := "New York"
  priceRange := { min := 0, max := 10000 }
  bio := "bio"
  imageUrl := "img"
  languages := ["english"]

/-- A concrete artist record with interval [500, 1000]. -/
def artistLow : Artist where
  id := "2"
  name := "Low"
  categories := ["dj"]
  location := "Boston"
  priceRange := { min := 500, max := 1000 }
  bio := "bio"
  imageUrl := "img"
  languages := ["english"]

/-- A concrete artist record with interval [2000, 3000]. -/
def artistHigh : Artist where
  id := "3"
  name := "High"
  categories := ["dancer"]
  location := "Austin"
  priceRange := { min := 2000, max := 3000 }
  bio := "bio"
  imageUrl := "img"
  languages := ["hindi"]

theorem artistPasses_iff (cfg : FilterConfig) (a : Artist) :
    artistPasses cfg a = true ↔ specPasses cfg a := by
  unfold artistPasses specPasses
  by_cases hc : cfg.category = "all" <;>
  by_cases hm : cfg.category ∈ a.categories <;>
  by_cases hl : cfg.location = "" <;>
  by_cases hs : strIncludes a.location.toLower cfg.location.toLower = true <;>
    simp [hc, hm, hl, hs]

theorem artistPasses_widen (cfg cfg2 : FilterConfig) (a : Artist)
    (hcat : cfg2.category = cfg.category) (hloc : cfg2.location = cfg.location)
    (hlo : cfg2.price.1 ≤ cfg.price.1) (hhi : cfg.price.2 ≤ cfg2.price.2)
    (hpass : artistPasses cfg a = true) : artistPasses cfg2 a = true := by
  rw [artistPasses_iff] at hpass ⊢
  unfold specPasses at hpass ⊢
  obtain ⟨h1, h2, h3, h4⟩ := hpass
  rw [hcat, hloc]
  exact ⟨h1, h2, le_trans h3 hhi, le_trans hlo h4⟩

/-- Claim C3: for every record set and filter configuration the filter
engine returns exactly the records that pass all three predicates —
category is the all sentinel or a member of the record's category set,
the location string is empty or occurs case-insensitively inside the
record's location, and the price intervals overlap — and returns them in
their original relative order (the output is a sublist of the input). -/
theorem filteredArtists_spec (artists : List Artist) (cfg : FilterConfig) :
    filteredArtists artists cfg =
      artists.filter (fun a => decide (specPasses cfg a)) ∧
    List.Sublist (filteredArtists artists cfg) artists := by
  constructor
  · apply List.filter_congr
    intro a _
    rw [Bool.eq_iff_iff, artistPasses_iff, decide_eq_true_eq]
  · exact List.filter_sublist artists

/-- Claim C2 counterexample: an inverted price interval (low bound 5000
above high bound 1000) does not force the empty result — a record whose
interval [0, 10000] contains the whole inverted gap still passes, with
category and location unconstrained. -/
theorem invertedInterval_not_empty :
    (1000 : Int) < 5000 ∧
    filteredArtists [artistSpan]
        { category := "all", location := "", price := (5000, 1000) } = [artistSpan] := by
  constructor
  · decide
  · rfl

/-- Claim C2 amended: an inverted interval [lo, hi] with lo > hi yields
the empty result whenever hi additionally lies below every record's
minimum (for instance any hi below 0 against the non-negative data-model
prices); in general a record passes exactly when its interval contains
both bounds, so inversion alone does not empty the result. -/
theorem filteredArtists_inverted_empty (artists : List Artist) (cfg : FilterConfig)
    (hinv : cfg.price.2 < cfg.price.1)
    (hbelow : ∀ a ∈ artists, cfg.price.2 < a.priceRange.min) :
    filteredArtists artists cfg = [] := by
  unfold filteredArtists
  rw [List.filter_eq_nil_iff]
  intro a ha hpass
  have h := ((artistPasses_iff cfg a).mp hpass).2.2.1
  have h2 := hbelow a ha
  omega

/-- Witness for the amended claim C2 at a concrete input. -/
theorem filteredArtists_inverted_empty_witness :
    filteredArtists [artistSpan]
      { category := "all", location := "", price := (5000, -1) } = [] :=
  filteredArtists_inverted_empty [artistSpan]
    { category := "all", location := "", price := (5000, -1) }
    (by decide) (by decide)

/-- Claim C8: a record passing the filter keeps passing when the price
interval is widened (low bound lowered and/or high bound raised) while
category and location stay fixed. -/
theorem filteredArtists_widen (artists : List Artist) (cfg cfg2 : FilterConfig)
    (a : Artist)
    (hcat : cfg2.category = cfg.category) (hloc : cfg2.location = cfg.location)
    (hlo : cfg2.price.1 ≤ cfg.price.1) (hhi : cfg.price.2 ≤ cfg2.price.2)
    (hpass : a ∈ filteredArtists artists cfg) :
    a ∈ filteredArtists artists cfg2 := by
  unfold filteredArtists at hpass ⊢
  rw [List.mem_filter] at hpass ⊢
  exact ⟨hpass.1, artistPasses_widen cfg cfg2 a hcat hloc hlo hhi hpass.2⟩

/-- Witness for claim C8 at a concrete input: a record passing with the
interval [400, 600] still passes after widening to [0, 5000]. -/
theorem filteredArtists_widen_witness :
    artistSpan ∈ filteredArtists [artistSpan]
      { category := "all", location := "", price := (0, 5000) } :=
  filteredArtists_widen [artistSpan]
    { category := "all", location := "", price := (400, 600) }
    { category := "all", location := "", price := (0, 5000) }
    artistSpan rfl rfl (by decide) (by decide) (by decide)

/-- Auxiliary: requesting a field twice through nested conditionals
collapses to requesting it once. -/
theorem ite_reproject {α : Type} (c : Prop) [Decidable c] (x : Option α) :
    (if c then (if c then x else none) else none) = if c then x else none := by
  by_cases h : c <;> simp [h]

/-- Claim C9: the resolver's field projection is idempotent — projecting
an already-projected object with the same field list returns it
unchanged. -/
theorem projection_idempotent (fields : List String) (a : Artist) :
    projectAgain fields (projectArtist fields a) = projectArtist fields a := by
  unfold projectArtist projectAgain
  simp only [ite_reproject]

/-- Invariant of the fee-range switch: every token, the recognized five
and the default case alike, maps to an interval with 0 ≤ min ≤ max. -/
theorem parseFeeRange_invariant (s : String) :
    0 ≤ (parseFeeRange s).min ∧ (parseFeeRange s).min ≤ (parseFeeRange s).max := by
  unfold parseFeeRange
  repeat' split
  all_goals decide

/-- Claim C10: every onboarding submission is transformed into a record
whose price interval satisfies 0 ≤ min ≤ max, for every fee-range token
including unrecognized ones. -/
theorem transform_priceRange_invariant (now : Nat) (formData : ArtistFormData) :
    0 ≤ (transformFormDataToArtist now formData).priceRange.min ∧
    (transformFormDataToArtist now formData).priceRange.min ≤
      (transformFormDataToArtist now formData).priceRange.max :=
  parseFeeRange_invariant formData.feeRange

/-- Claim C4: the operation classification tests the document text for
the dispatch patterns in exactly this precedence: the single-record
pattern wins, then the category pattern, then the location pattern, and
the artists operation is the default. -/
theorem classifyOperation_precedence (q : String) :
    (strIncludes q "artist(" = true → classifyOperation q = "artist") ∧
    (strIncludes q "artist(" = false → strIncludes q "artistsByCategory" = true →
      classifyOperation q = "artistsByCategory") ∧
    (strIncludes q "artist(" = false → strIncludes q "artistsByCategory" = false →
      strIncludes q "artistsByLocation" = true →
      classifyOperation q = "artistsByLocation") ∧
    (strIncludes q "artist(" = false → strIncludes q "artistsByCategory" = false →
      strIncludes q "artistsByLocation" = false → classifyOperation q = "artists") := by
  unfold classifyOperation
  refine ⟨fun h1 => ?_, fun h1 h2 => ?_, fun h1 h2 h3 => ?_, fun h1 h2 h3 => ?_⟩ <;>
    simp [h1, *]

/-- Witness for claim C4: the four predefined documents classify to the
four operations. -/
theorem classifyOperation_precedence_witness :
    classifyOperation queries.getArtistById = "artist" ∧
    classifyOperation queries.getArtistsByCategory = "artistsByCategory" ∧
    classifyOperation queries.getArtistsByLocation = "artistsByLocation" ∧
    classifyOperation queries.getAllArtists = "artists" :=
  ⟨(classifyOperation_precedence queries.getArtistById).1 (by decide),
   (classifyOperation_precedence queries.getArtistsByCategory).2.1
     (by decide) (by decide),
   (classifyOperation_precedence queries.getArtistsByLocation).2.2.1
     (by decide) (by decide) (by decide),
   (classifyOperation_precedence queries.getAllArtists).2.2.2
     (by decide) (by decide) (by decide)⟩

/-- The catch clause of graphqlRequest is reachable: a location query
whose variable mapping omits the location makes the resolver throw, and
the response carries the message with a null payload. -/
theorem graphqlRequest_missing_location :
    graphqlRequest [artistSpan] queries.getArtistsByLocation
        { id := none, category := none, location := none } =
      { data := GQLData.null,
        errors := some ["Cannot read properties of undefined (reading \x27toLowerCase\x27)"] } := by
  rfl

/-- Claim C5: graphqlRequest never lets a thrown condition escape — for
every record set, document and variable mapping the call returns a
response, and either the try-block succeeded and its payload is returned
without errors, or it threw and the response is exactly null data plus a
one-entry error list carrying the thrown message. -/
theorem graphqlRequest_no_escape (artists : List Artist) (queryString : String)
    (vars : Variables) :
    ((graphqlRequest artists queryString vars).errors = none ∧
      graphqlTry artists queryString vars =
        Except.ok (graphqlRequest artists queryString vars).data) ∨
    (∃ msg, graphqlTry artists queryString vars = Except.error msg ∧
      graphqlRequest artists queryString vars =
        { data := GQLData.null, errors := some [msg] }) := by
  unfold graphqlRequest
  cases h : graphqlTry artists queryString vars with
  | ok d => exact Or.inl ⟨rfl, rfl⟩
  | error msg => exact Or.inr ⟨msg, rfl, rfl⟩

/-- Claim C1 counterexample: the extraction stops at the first closing
brace of the document, so the fetch-all document's bio field (listed
after the nested priceRange block) is absent from the extracted list. -/
theorem parseQuery_misses_bio :
    parseQuery queries.getAllArtists =
      ["artists", "id", "name", "categories", "location", "priceRange", "min", "max"] ∧
    "bio" ∉ parseQuery queries.getAllArtists := by
  refine ⟨rfl, ?_⟩
  intro h
  rw [show parseQuery queries.getAllArtists =
      ["artists", "id", "name", "categories", "location", "priceRange", "min", "max"]
    from rfl] at h
  simp at h

/-- Claim C1 amended: the capture runs from the first opening brace of
the document only up to the first closing brace (not to the balanced
top-level close), so nested sub-selections truncate the field list; on
the four predefined documents the extraction yields exactly these lists,
each missing every field written after the nested priceRange block. -/
theorem parseQuery_predefined :
    parseQuery queries.getAllArtists =
      ["artists", "id", "name", "categories", "location", "priceRange", "min", "max"] ∧
    parseQuery queries.getArtistById =
      ["artist(id: $id)", "id", "name", "categories", "location",
        "priceRange", "min", "max"] ∧
    parseQuery queries.getArtistsByCategory =
      ["artistsByCategory(category: $category)", "id", "name", "categories",
        "location", "priceRange", "min", "max"] ∧
    parseQuery queries.getArtistsByLocation =
      ["artistsByLocation(location: $location)", "id", "name", "categories",
        "location", "priceRange", "min", "max"] :=
  ⟨rfl, rfl, rfl, rfl⟩

theorem foldl_min_le_init (l : List Int) (x : Int) : l.foldl min x ≤ x := by
  induction l generalizing x with
  | nil => simp
  | cons a l ih =>
    simpa using le_trans (ih (min x a)) (min_le_left x a)

theorem foldl_min_le_mem (l : List Int) (x a : Int) (h : a ∈ l) :
    l.foldl min x ≤ a := by
  induction l generalizing x with
  | nil => cases h
  | cons b l ih =>
    rcases List.mem_cons.mp h with rfl | h2
    · simpa using le_trans (foldl_min_le_init l (min x a)) (min_le_right x a)
    · simpa using ih (min x b) h2

theorem foldl_min_mem (l : List Int) (x : Int) :
    l.foldl min x = x ∨ l.foldl min x ∈ l := by
  induction l generalizing x with
  | nil => exact Or.inl rfl
  | cons b l ih =>
    simp only [List.foldl_cons]
    rcases ih (min x b) with h | h
    · rw [h]
      rcases min_cases x b with ⟨h2, _⟩ | ⟨h2, _⟩
      · exact Or.inl h2
      · rw [h2]
        exact Or.inr (List.mem_cons_self b l)
    · exact Or.inr (List.mem_cons_of_mem b h)

theorem foldl_max_ge_init (l : List Int) (x : Int) : x ≤ l.foldl max x := by
  induction l generalizing x with
  | nil => simp
  | cons a l ih =>
    simpa using le_trans (le_max_left x a) (ih (max x a))

theorem foldl_max_ge_mem (l : List Int) (x a : Int) (h : a ∈ l) :
    a ≤ l.foldl max x := by
  induction l generalizing x with
  | nil => cases h
  | cons b l ih =>
    rcases List.mem_cons.mp h with rfl | h2
    · simpa using le_trans (le_max_right x a) (foldl_max_ge_init l (max x a))
    · simpa using ih (max x b) h2

theorem foldl_max_mem (l : List Int) (x : Int) :
    l.foldl max x = x ∨ l.foldl max x ∈ l := by
  induction l generalizing x with
  | nil => exact Or.inl rfl
  | cons b l ih =>
    simp only [List.foldl_cons]
    rcases ih (max x b) with h | h
    · rw [h]
      rcases max_cases x b with ⟨h2, _⟩ | ⟨h2, _⟩
      · exact Or.inl h2
      · rw [h2]
        exact Or.inr (List.mem_cons_self b l)
    · exact Or.inr (List.mem_cons_of_mem b h)

theorem jsMin_le_mem (l : List Int) (a : Int) (h : a ∈ l) : jsMin l ≤ a := by
  cases l with
  | nil => cases h
  | cons x xs =>
    rcases List.mem_cons.mp h with rfl | h2
    · exact foldl_min_le_init xs a
    · exact foldl_min_le_mem xs x a h2

theorem jsMin_mem (l : List Int) (h : l ≠ []) : jsMin l ∈ l := by
  cases l with
  | nil => exact absurd rfl h
  | cons x xs =>
    show List.foldl min x xs ∈ x :: xs
    rcases foldl_min_mem xs x with h2 | h2
    · rw [h2]
      exact List.mem_cons_self x xs
    · exact List.mem_cons_of_mem x h2

theorem jsMax_ge_mem (l : List Int) (a : Int) (h : a ∈ l) : a ≤ jsMax l := by
  cases l with
  | nil => cases h
  | cons x xs =>
    rcases List.mem_cons.mp h with rfl | h2
    · exact foldl_max_ge_init xs a
    · exact foldl_max_ge_mem xs x a h2

theorem jsMax_mem (l : List Int) (h : l ≠ []) : jsMax l ∈ l := by
  cases l with
  | nil => exact absurd rfl h
  | cons x xs =>
    show List.foldl max x xs ∈ x :: xs
    rcases foldl_max_mem xs x with h2 | h2
    · rw [h2]
      exact List.mem_cons_self x xs
    · exact List.mem_cons_of_mem x h2

theorem mem_priceEndpoints_min (artists : List Artist) (a : Artist) (h : a ∈ artists) :
    a.priceRange.min ∈ priceEndpoints artists :=
  List.mem_flatMap.mpr ⟨a, h, by simp⟩

theorem mem_priceEndpoints_max (artists : List Artist) (a : Artist) (h : a ∈ artists) :
    a.priceRange.max ∈ priceEndpoints artists :=
  List.mem_flatMap.mpr ⟨a, h, by simp⟩

/-- Claim C6: when every record's interval satisfies 0 ≤ min ≤ max, the
price-bounds facet is the minimum of all minimums paired with the
maximum of all maximums (attained on some record and bounding all of
them), and the empty record set gets the default pair (0, 5000). -/
theorem priceStats_spec (artists : List Artist)
    (hinv : ∀ a ∈ artists, 0 ≤ a.priceRange.min ∧ a.priceRange.min ≤ a.priceRange.max) :
    (artists = [] → priceStats artists = { min := 0, max := 5000 }) ∧
    (artists ≠ [] →
      (∃ a ∈ artists, (priceStats artists).min = a.priceRange.min) ∧
      (∀ a ∈ artists, (priceStats artists).min ≤ a.priceRange.min) ∧
      (∃ a ∈ artists, (priceStats artists).max = a.priceRange.max) ∧
      (∀ a ∈ artists, a.priceRange.max ≤ (priceStats artists).max)) := by
  constructor
  · intro h
    subst h
    rfl
  · intro hne
    obtain ⟨a0, ha0⟩ := List.exists_mem_of_ne_nil artists hne
    have hemp : artists.isEmpty = false := by
      simpa [List.isEmpty_iff] using hne
    have hstats : priceStats artists =
        { min := jsMin (priceEndpoints artists), max := jsMax (priceEndpoints artists) } := by
      unfold priceStats
      rw [hemp]
      rfl
    have hepne : priceEndpoints artists ≠ [] :=
      List.ne_nil_of_mem (mem_priceEndpoints_min artists a0 ha0)
    have hmin_eq : (priceStats artists).min = jsMin (priceEndpoints artists) := by
      rw [hstats]
    have hmax_eq : (priceStats artists).max = jsMax (priceEndpoints artists) := by
      rw [hstats]
    refine ⟨?_, ?_, ?_, ?_⟩
    · have hmem := jsMin_mem (priceEndpoints artists) hepne
      obtain ⟨a, ha, hin⟩ := List.mem_flatMap.mp hmem
      simp only [List.mem_cons, List.not_mem_nil, or_false] at hin
      rcases hin with hmin | hmax
      · exact ⟨a, ha, by rw [hmin_eq]; exact hmin⟩
      · refine ⟨a, ha, ?_⟩
        have h1 : jsMin (priceEndpoints artists) ≤ a.priceRange.min :=
          jsMin_le_mem _ _ (mem_priceEndpoints_min artists a ha)
        have h2 : a.priceRange.min ≤ a.priceRange.max := (hinv a ha).2
        rw [hmin_eq]
        omega
    · intro a ha
      rw [hmin_eq]
      exact jsMin_le_mem _ _ (mem_priceEndpoints_min artists a ha)
    · have hmem := jsMax_mem (priceEndpoints artists) hepne
      obtain ⟨a, ha, hin⟩ := List.mem_flatMap.mp hmem
      simp only [List.mem_cons, List.not_mem_nil, or_false] at hin
      rcases hin with hmin | hmax
      · refine ⟨a, ha, ?_⟩
        have h1 : a.priceRange.max ≤ jsMax (priceEndpoints artists) :=
          jsMax_ge_mem _ _ (mem_priceEndpoints_max artists a ha)
        have h2 : a.priceRange.min ≤ a.priceRange.max := (hinv a ha).2
        rw [hmax_eq]
        omega
      · exact ⟨a, ha, by rw [hmax_eq]; exact hmax⟩
    · intro a ha
      rw [hmax_eq]
      exact jsMax_ge_mem _ _ (mem_priceEndpoints_max artists a ha)

/-- Witness for claim C6 at a concrete two-record set. -/
theorem priceStats_spec_witness :
    (priceStats [artistLow, artistHigh]).min ≤ artistLow.priceRange.min :=
  ((priceStats_spec [artistLow, artistHigh] (by decide)).2 (by decide)).2.1
    artistLow (by decide)

theorem mem_setInsertionOrder (xs : List String) (seen : List String) (a : String) :
    a ∈ setInsertionOrder seen xs ↔ (a ∈ xs ∧ a ∉ seen) := by
  induction xs generalizing seen with
  | nil => simp [setInsertionOrder]
  | cons x xs ih =>
    unfold setInsertionOrder
    by_cases h : x ∈ seen
    · rw [if_pos (by simpa using h)]
      rw [ih]
      constructor
      · rintro ⟨h1, h2⟩
        exact ⟨List.mem_cons_of_mem x h1, h2⟩
      · rintro ⟨h1, h2⟩
        rcases List.mem_cons.mp h1 with rfl | h3
        · exact absurd h h2
        · exact ⟨h3, h2⟩
    · rw [if_neg (by simpa using h)]
      simp only [List.mem_cons, ih]
      constructor
      · rintro (rfl | ⟨h1, h2⟩)
        · exact ⟨Or.inl rfl, h⟩
        · exact ⟨Or.inr h1, fun hs => h2 (Or.inr hs)⟩
      · rintro ⟨rfl | h1, h2⟩
        · exact Or.inl rfl
        · by_cases hax : a = x
          · exact Or.inl hax
          · refine Or.inr ⟨h1, fun hmem => ?_⟩
            rcases hmem with rfl | hs
            · exact hax rfl
            · exact h2 hs

theorem setInsertionOrder_nodup (xs seen : List String) :
    (setInsertionOrder seen xs).Nodup := by
  induction xs generalizing seen with
  | nil => simp [setInsertionOrder]
  | cons x xs ih =>
    unfold setInsertionOrder
    by_cases h : x ∈ seen
    · rw [if_pos (by simpa using h)]
      exact ih seen
    · rw [if_neg (by simpa using h)]
      refine List.nodup_cons.mpr ⟨fun hmem => ?_, ih (x :: seen)⟩
      exact ((mem_setInsertionOrder xs (x :: seen) x).mp hmem).2 (List.mem_cons_self x seen)

/-- Claim C7: for every record set the location facet is sorted
ascending, duplicate-free, and contains exactly the distinct location
values present among the records. -/
theorem availableLocations_spec (artists : List Artist) :
    List.Sorted (fun s t => s ≤ t) (availableLocations artists) ∧
    (availableLocations artists).Nodup ∧
    (∀ s, s ∈ availableLocations artists ↔ ∃ a ∈ artists, a.location = s) := by
  have hperm : List.Perm (availableLocations artists)
      (setInsertionOrder [] (artists.map (fun a => a.location))) :=
    List.mergeSort_perm _ _
  refine ⟨?_, ?_, ?_⟩
  · exact List.sorted_mergeSort' _
  · exact hperm.nodup_iff.mpr (setInsertionOrder_nodup _ _)
  · intro s
    rw [hperm.mem_iff, mem_setInsertionOrder]
    simp [List.mem_map]

end Artistly
